import Mathlib

/-!
Shallow embedding of `remove_print_statements.py` (a libcst-based codemod that
deletes standalone `print(...)` statements from Python source files), together
with proofs of the specification's claims about it.

The embedding models the fragment of the libcst concrete syntax tree that the
tool manipulates: expressions, small statements (the contents of a
`SimpleStatementLine`), and compound statements with indented blocks.  Each
`SimpleStatementLine` carries the 1-based start line reported by libcst's
`PositionProvider` for the small statements it contains; small statements on
the same physical line (separated by semicolons) share that start line, which
is exactly how `PositionProvider` reports them.
-/

namespace RemovePrint

/-- Expressions of the embedded CST fragment (libcst `BaseExpression`).
`Name` is a simple unqualified identifier, `Attribute` a dotted access,
`Subscript` an indexing, `Call` a function call, `BinaryOperation` a binary
operator application, `SimpleString` a string literal and `IntegerLit` an
integer literal. -/
inductive Expression where
  | Name (value : String)
  | Attribute (value : Expression) (attr : String)
  | Subscript (value : Expression) (index : Expression)
  | Call (func : Expression) (args : List Expression)
  | BinaryOperation (op : String) (left : Expression) (right : Expression)
  | SimpleString (value : String)
  | IntegerLit (value : Nat)

/-- Small statements: the statements that make up the body of a libcst
`SimpleStatementLine`.  `Expr` is an expression statement (libcst `cst.Expr`),
the node kind the matcher `RemovePrintStatements.PRINT_STATEMENT` targets. -/
inductive SmallStmt where
  | Expr (value : Expression)
  | Assign (target : String) (value : Expression)
  | Pass
  | Return (value : Option Expression)

/-- Statements of a module or an indented block.  `SimpleStatementLine`
carries the 1-based start line of its small statements; compound statements
carry their header line and their indented block(s) as statement lists.
`If` carries an optional else block. -/
inductive Stmt where
  | SimpleStatementLine (line : Nat) (body : List SmallStmt)
  | FunctionDef (line : Nat) (name : String) (body : List Stmt)
  | ClassDef (line : Nat) (name : String) (body : List Stmt)
  | If (line : Nat) (test : Expression) (body : List Stmt) (orelse : Option (List Stmt))
  | For (line : Nat) (target : String) (iter : Expression) (body : List Stmt)
  | While (line : Nat) (test : Expression) (body : List Stmt)

/-- A parsed module: libcst `cst.Module`, a (possibly empty) statement list. -/
structure Module where
  body : List Stmt

/-- Embedding of the matcher `RemovePrintStatements.PRINT_STATEMENT`, i.e.
`m.Expr(value=m.Call(func=m.Name(value="print")))`: the candidate node is an
expression statement whose value is a call whose function is the bare name
`print`; the call's arguments are unconstrained. -/
def matchesPrintStatement : SmallStmt → Bool
  | SmallStmt.Expr (Expression.Call (Expression.Name v) _) => v == "print"
  | _ => false

mutual

/-- Canonical source text of an expression, the embedding's counterpart of
`Module.code_for_node` applied to an expression node. -/
def exprCode : Expression → String
  | Expression.Name v => v
  | Expression.Attribute v a => exprCode v ++ "." ++ a
  | Expression.Subscript v i => exprCode v ++ "[" ++ exprCode i ++ "]"
  | Expression.Call f args =>
      exprCode f ++ "(" ++ String.intercalate ", " (exprListCode args) ++ ")"
  | Expression.BinaryOperation op l r => exprCode l ++ " " ++ op ++ " " ++ exprCode r
  | Expression.SimpleString v => v
  | Expression.IntegerLit n => toString n

/-- Source texts of a list of expressions, in order. -/
def exprListCode : List Expression → List String
  | [] => []
  | e :: rest => exprCode e :: exprListCode rest

end

/-- Canonical source text of a small statement. -/
def smallStmtCode : SmallStmt → String
  | SmallStmt.Expr e => exprCode e
  | SmallStmt.Assign t e => t ++ " = " ++ exprCode e
  | SmallStmt.Pass => "pass"
  | SmallStmt.Return none => "return"
  | SmallStmt.Return (some e) => "return " ++ exprCode e

/-- The placeholder statement libcst's rewriter leaves behind when removal
empties an indented block: a line holding a single `pass`.  (Pinned by the
repository's test `test_single_statement`.) -/
def passLine : Stmt := Stmt.SimpleStatementLine 0 [SmallStmt.Pass]

/-- Block repair applied to every indented block after child removal: if the
block became empty, it holds exactly one `pass` placeholder; otherwise it is
left as is. -/
def withPass (r : List Stmt) : List Stmt := if r.isEmpty then [passLine] else r

mutual

/-- Tree rewrite performed by one traversal of the codemod: the effect of
`leave_Expr` (guarded by `call_if_inside(PRINT_STATEMENT)`) together with
libcst's removal semantics.  In dry-run mode every node is returned
unchanged; otherwise each matched expression statement is removed from its
`SimpleStatementLine`, a line whose body becomes empty is dropped from its
parent, and an indented block that becomes empty receives a `pass`
placeholder.  Returns `none` when the statement disappears entirely. -/
def transformStmt (dry_run : Bool) : Stmt → Option Stmt
  | Stmt.SimpleStatementLine l body =>
      let body2 := if dry_run then body else body.filter (fun s => ! matchesPrintStatement s)
      if body2.isEmpty then none else some (Stmt.SimpleStatementLine l body2)
  | Stmt.FunctionDef l n body => some (Stmt.FunctionDef l n (withPass (transformStmts dry_run body)))
  | Stmt.ClassDef l n body => some (Stmt.ClassDef l n (withPass (transformStmts dry_run body)))
  | Stmt.If l t body orelse =>
      some (Stmt.If l t (withPass (transformStmts dry_run body))
        (match orelse with
         | none => none
         | some o => some (withPass (transformStmts dry_run o))))
  | Stmt.For l tg it body => some (Stmt.For l tg it (withPass (transformStmts dry_run body)))
  | Stmt.While l t body => some (Stmt.While l t (withPass (transformStmts dry_run body)))

/-- Rewrite of a statement list, dropping statements removed entirely. -/
def transformStmts (dry_run : Bool) : List Stmt → List Stmt
  | [] => []
  | s :: rest =>
      match transformStmt dry_run s with
      | none => transformStmts dry_run rest
      | some s2 => s2 :: transformStmts dry_run rest

end

/-- Rewrite of a whole module.  The module body itself is not an indented
block, so no `pass` placeholder is inserted at module level. -/
def transformModule (dry_run : Bool) (m : Module) : Module :=
  Module.mk (transformStmts dry_run m.body)

mutual

/-- The matched statements encountered by the traversal, in document order,
each paired with its start line and its source text: the sequence of calls
libcst makes to `visit_Expr` under the `call_if_inside(PRINT_STATEMENT)`
guard.  All small statements of one `SimpleStatementLine` share its start
line, as `PositionProvider` reports. -/
def collectStmt : Stmt → List (Nat × String)
  | Stmt.SimpleStatementLine l body =>
      (body.filter matchesPrintStatement).map (fun s => (l, smallStmtCode s))
  | Stmt.FunctionDef _ _ body => collectStmts body
  | Stmt.ClassDef _ _ body => collectStmts body
  | Stmt.If _ _ body orelse =>
      collectStmts body ++ (match orelse with
        | none => []
        | some o => collectStmts o)
  | Stmt.For _ _ _ body => collectStmts body
  | Stmt.While _ _ body => collectStmts body

/-- Matched statements of a statement list, in document order. -/
def collectStmts : List Stmt → List (Nat × String)
  | [] => []
  | s :: rest => collectStmt s ++ collectStmts rest

end

/-- One update of the insertion-ordered mapping `self._print_statements`:
Python dict assignment `d[k] = v`, which overwrites in place when the key is
present (keeping its position) and appends at the end otherwise. -/
def insertOrUpdate (k : Nat) (v : String) : List (Nat × String) → List (Nat × String)
  | [] => [(k, v)]
  | p :: rest => if p.1 = k then (k, v) :: rest else p :: insertOrUpdate k v rest

/-- Folding a sequence of recorded matches into the mapping, in traversal
order: the accumulated effect of the `self._print_statements[line] = code`
assignments performed by `visit_Expr`. -/
def dictInsertAll (d : List (Nat × String)) (kvs : List (Nat × String)) : List (Nat × String) :=
  kvs.foldl (fun acc kv => insertOrUpdate kv.1 kv.2 acc) d

/-- Final state of one `RemovePrintStatements` codemod run on a module:
the running match count `print_statement_count`, the verbose mapping
`print_statements`, and the rewritten tree. -/
structure RunResult where
  print_statement_count : Nat
  print_statements : List (Nat × String)
  tree : Module

/-- One full run of the `RemovePrintStatements` transformer on a parsed
module: `visit_Expr` increments the count once per matched statement and, in
verbose mode, records its start line and source text in the ordered mapping;
`leave_Expr` rewrites the tree according to the dry-run flag. -/
def removePrintStatements (dry_run verbose : Bool) (m : Module) : RunResult :=
  { print_statement_count := (collectStmts m.body).length
    print_statements := if verbose then dictInsertAll [] (collectStmts m.body) else []
    tree := transformModule dry_run m }

mutual

/-- Position well-formedness of a statement whose start line must be at least
`lo`, as produced by parsing real source: bodies are non-empty, a compound
statement's block starts strictly below its header line, and siblings appear
on non-decreasing lines.  Returns the lower bound available to the following
sibling, or `none` when the shape cannot come from a parse. -/
def wfStmtFrom (lo : Nat) : Stmt → Option Nat
  | Stmt.SimpleStatementLine l body =>
      if lo ≤ l && ! body.isEmpty then some (l + 1) else none
  | Stmt.FunctionDef l _ body =>
      if lo ≤ l && ! body.isEmpty then wfStmtsFrom (l + 1) body else none
  | Stmt.ClassDef l _ body =>
      if lo ≤ l && ! body.isEmpty then wfStmtsFrom (l + 1) body else none
  | Stmt.If l _ body orelse =>
      if lo ≤ l && ! body.isEmpty then
        match wfStmtsFrom (l + 1) body with
        | none => none
        | some lo2 =>
            match orelse with
            | none => some lo2
            | some o => if ! o.isEmpty then wfStmtsFrom lo2 o else none
      else none
  | Stmt.For l _ _ body =>
      if lo ≤ l && ! body.isEmpty then wfStmtsFrom (l + 1) body else none
  | Stmt.While l _ body =>
      if lo ≤ l && ! body.isEmpty then wfStmtsFrom (l + 1) body else none

/-- Position well-formedness of sibling statements starting at or below `lo`. -/
def wfStmtsFrom (lo : Nat) : List Stmt → Option Nat
  | [] => some lo
  | s :: rest =>
      match wfStmtFrom lo s with
      | none => none
      | some lo2 => wfStmtsFrom lo2 rest

end

/-- A module whose statement positions are consistent with a parse of real
source text (lines are 1-based). -/
def wfModule (m : Module) : Bool := (wfStmtsFrom 1 m.body).isSome

mutual

/-- Structural validity of a statement: every `SimpleStatementLine` and every
indented block is non-empty, so the tree renders to re-parseable source. -/
def validStmt : Stmt → Bool
  | Stmt.SimpleStatementLine _ body => ! body.isEmpty
  | Stmt.FunctionDef _ _ body => ! body.isEmpty && validStmts body
  | Stmt.ClassDef _ _ body => ! body.isEmpty && validStmts body
  | Stmt.If _ _ body orelse =>
      ! body.isEmpty && validStmts body &&
        (match orelse with
         | none => true
         | some o => ! o.isEmpty && validStmts o)
  | Stmt.For _ _ _ body => ! body.isEmpty && validStmts body
  | Stmt.While _ _ body => ! body.isEmpty && validStmts body

/-- Structural validity of a statement list. -/
def validStmts : List Stmt → Bool
  | [] => true
  | s :: rest => validStmt s && validStmts rest

end

/-- Structural validity of a module (the module body itself may be empty). -/
def validModule (m : Module) : Bool := validStmts m.body

/-- Python `str.splitlines` restricted to `\n` separators: the empty string
has no lines, and a trailing newline does not produce a trailing empty line. -/
def pySplitlines (s : String) : List String :=
  if s = "" then []
  else
    let parts := s.splitOn "\n"
    if parts.getLastD "" = "" then parts.dropLast else parts

/-- One report line of the verbose output: two spaces, the line-number
marker, a space and the statement text (colour styling elided). -/
def styledLine (lineno : Nat) (line : String) : String :=
  "  " ++ toString lineno ++ " " ++ line

/-- Embedding of `format_verbose_output`: empty output for an empty mapping;
otherwise a result list seeded with the filename, extended — for each mapping
entry in insertion order and each physical line of that entry's statement
text, numbered consecutively from the entry's start line — with one report
line, finally joined with newlines. -/
def format_verbose_output (filename : String) (print_statements : List (Nat × String)) : String :=
  if print_statements.length == 0 then ""
  else
    String.intercalate "\n"
      (print_statements.foldl
        (fun acc p =>
          acc ++ (List.enumFrom p.1 (pySplitlines p.2)).map (fun q => styledLine q.1 q.2))
        [filename])

/-- Embedding of the `Report` dataclass: the aggregate, cross-file counters. -/
structure Report where
  dry_run : Bool := false
  verbose : Bool := false
  file_count : Nat := 0
  print_statement_count : Nat := 0
  failure_count : Nat := 0

/-- Embedding of `Report.return_code`: 123 on any failure, 1 when files were
changed during a dry run, 0 otherwise. -/
def Report.return_code (r : Report) : Nat :=
  if r.failure_count != 0 then 123
  else if r.file_count != 0 && r.dry_run then 1
  else 0

/-- What `check_file` finds when it opens and parses one file: the file is
unreadable (I/O failure), the text fails to transform (libcst
`TransformFailure`, e.g. a parse error), or a parsed module to run the
codemod on. -/
inductive FileInput where
  | unreadable
  | unparseable
  | source (m : Module)

/-- Outcome of `check_file`: the updated report and the content written back
to the file, if any write happened. -/
structure CheckResult where
  report : Report
  written : Option String

mutual

/-- Rendered source lines of one statement at the given indentation. -/
def stmtRender (ind : String) : Stmt → List String
  | Stmt.SimpleStatementLine _ body =>
      [ind ++ String.intercalate "; " (body.map smallStmtCode)]
  | Stmt.FunctionDef _ n body =>
      (ind ++ "def " ++ n ++ "():") :: stmtsRender (ind ++ "    ") body
  | Stmt.ClassDef _ n body =>
      (ind ++ "class " ++ n ++ ":") :: stmtsRender (ind ++ "    ") body
  | Stmt.If _ t body orelse =>
      ((ind ++ "if " ++ exprCode t ++ ":") :: stmtsRender (ind ++ "    ") body) ++
        (match orelse with
         | none => []
         | some o => (ind ++ "else:") :: stmtsRender (ind ++ "    ") o)
  | Stmt.For _ tg it body =>
      (ind ++ "for " ++ tg ++ " in " ++ exprCode it ++ ":") :: stmtsRender (ind ++ "    ") body
  | Stmt.While _ t body =>
      (ind ++ "while " ++ exprCode t ++ ":") :: stmtsRender (ind ++ "    ") body

/-- Rendered source lines of a statement list at the given indentation. -/
def stmtsRender (ind : String) : List Stmt → List String
  | [] => []
  | s :: rest => stmtRender ind s ++ stmtsRender ind rest

end

/-- Rendered source text of a module, the embedding's counterpart of the
serialized `result.code` that `check_file` writes back to disk. -/
def moduleCode (m : Module) : String :=
  String.intercalate "\n" (stmtsRender "" m.body)

/-- Embedding of `check_file`: an unreadable or unparseable file only bumps
the failure count; a transformed module with at least one match bumps the
file count and the aggregate match count and, unless dry-run, writes the
rewritten code back; a module with zero matches changes nothing. -/
def check_file (input : FileInput) (report : Report) (dry_run verbose : Bool) : CheckResult :=
  match input with
  | FileInput.unreadable =>
      { report := { report with failure_count := report.failure_count + 1 }, written := none }
  | FileInput.unparseable =>
      { report := { report with failure_count := report.failure_count + 1 }, written := none }
  | FileInput.source m =>
      let res := removePrintStatements dry_run verbose m
      if res.print_statement_count != 0 then
        let report2 : Report :=
          { report with
            file_count := report.file_count + 1
            print_statement_count := report.print_statement_count + res.print_statement_count }
        if ! dry_run then { report := report2, written := some (moduleCode res.tree) }
        else { report := report2, written := none }
      else { report := report, written := none }

/-! ### Helper lemmas about the insertion-ordered mapping -/

theorem mem_keys_insertOrUpdate (k x : Nat) (v : String) (d : List (Nat × String)) :
    x ∈ (insertOrUpdate k v d).map Prod.fst ↔ x = k ∨ x ∈ d.map Prod.fst := by
  induction d with
  | nil => simp [insertOrUpdate]
  | cons p rest ih =>
    have hdef : insertOrUpdate k v (p :: rest)
        = if p.1 = k then (k, v) :: rest else p :: insertOrUpdate k v rest := rfl
    by_cases h : p.1 = k
    · rw [hdef, if_pos h]
      simp only [List.map_cons, List.mem_cons, h]
      tauto
    · rw [hdef, if_neg h]
      simp only [List.map_cons, List.mem_cons, ih]
      tauto

theorem length_insertOrUpdate (k : Nat) (v : String) (d : List (Nat × String)) :
    (insertOrUpdate k v d).length =
      if k ∈ d.map Prod.fst then d.length else d.length + 1 := by
  induction d with
  | nil => simp [insertOrUpdate]
  | cons p rest ih =>
    by_cases h : p.1 = k
    · simp [insertOrUpdate, h]
    · have hk : (k ∈ (p :: rest).map Prod.fst) ↔ k ∈ rest.map Prod.fst := by
        simp only [List.map_cons, List.mem_cons]
        constructor
        · rintro (hh | hh)
          · exact absurd hh.symm h
          · exact hh
        · exact Or.inr
      simp only [insertOrUpdate, if_neg h, List.length_cons, ih, hk]
      by_cases hm : k ∈ rest.map Prod.fst <;> simp [hm]

theorem insertOrUpdate_of_not_mem (k : Nat) (v : String) (d : List (Nat × String))
    (h : k ∉ d.map Prod.fst) : insertOrUpdate k v d = d ++ [(k, v)] := by
  induction d with
  | nil => simp [insertOrUpdate]
  | cons p rest ih =>
    simp only [List.map_cons, List.mem_cons, not_or] at h
    have hne : p.1 ≠ k := fun hh => h.1 hh.symm
    simp [insertOrUpdate, hne, ih h.2]

theorem keys_insertOrUpdate_of_mem (k : Nat) (v : String) (d : List (Nat × String))
    (h : k ∈ d.map Prod.fst) :
    (insertOrUpdate k v d).map Prod.fst = d.map Prod.fst := by
  induction d with
  | nil => simp at h
  | cons p rest ih =>
    by_cases hp : p.1 = k
    · simp [insertOrUpdate, hp]
    · have hr : k ∈ rest.map Prod.fst := by
        simp only [List.map_cons, List.mem_cons] at h
        rcases h with h | h
        · exact absurd h.symm hp
        · exact h
      simp [insertOrUpdate, hp, ih hr]

theorem length_dictInsertAll_le (kvs : List (Nat × String)) :
    ∀ d : List (Nat × String), (dictInsertAll d kvs).length ≤ d.length + kvs.length := by
  induction kvs with
  | nil => intro d; simp [dictInsertAll]
  | cons kv rest ih =>
    intro d
    have h1 : dictInsertAll d (kv :: rest) = dictInsertAll (insertOrUpdate kv.1 kv.2 d) rest := rfl
    rw [h1]
    have h2 := ih (insertOrUpdate kv.1 kv.2 d)
    have h3 : (insertOrUpdate kv.1 kv.2 d).length ≤ d.length + 1 := by
      rw [length_insertOrUpdate]
      by_cases hm : kv.1 ∈ d.map Prod.fst <;> simp [hm]
    simp only [List.length_cons]
    omega

theorem length_dictInsertAll_nodup (kvs : List (Nat × String)) :
    ∀ d : List (Nat × String), (∀ p ∈ kvs, p.1 ∉ d.map Prod.fst) →
      (kvs.map Prod.fst).Nodup →
      (dictInsertAll d kvs).length = d.length + kvs.length := by
  induction kvs with
  | nil => intro d _ _; simp [dictInsertAll]
  | cons kv rest ih =>
    intro d hdisj hnd
    have h1 : dictInsertAll d (kv :: rest) = dictInsertAll (insertOrUpdate kv.1 kv.2 d) rest := rfl
    rw [h1]
    have hk : kv.1 ∉ d.map Prod.fst := hdisj kv (List.mem_cons_self kv rest)
    have hlen : (insertOrUpdate kv.1 kv.2 d).length = d.length + 1 := by
      rw [length_insertOrUpdate, if_neg hk]
    simp only [List.map_cons, List.nodup_cons] at hnd
    have hdisj2 : ∀ p ∈ rest, p.1 ∉ (insertOrUpdate kv.1 kv.2 d).map Prod.fst := by
      intro p hp
      rw [mem_keys_insertOrUpdate]
      rintro (h | h)
      · exact hnd.1 (h ▸ List.mem_map_of_mem Prod.fst hp)
      · exact hdisj p (List.mem_cons_of_mem kv hp) h
    rw [ih (insertOrUpdate kv.1 kv.2 d) hdisj2 hnd.2, hlen]
    simp only [List.length_cons]
    omega

theorem mem_keys_dictInsertAll (kvs : List (Nat × String)) :
    ∀ d : List (Nat × String), ∀ x,
      x ∈ (dictInsertAll d kvs).map Prod.fst ↔ x ∈ d.map Prod.fst ∨ x ∈ kvs.map Prod.fst := by
  induction kvs with
  | nil => intro d x; simp [dictInsertAll]
  | cons kv rest ih =>
    intro d x
    have h1 : dictInsertAll d (kv :: rest) = dictInsertAll (insertOrUpdate kv.1 kv.2 d) rest := rfl
    rw [h1, ih, mem_keys_insertOrUpdate]
    simp only [List.map_cons, List.mem_cons]
    tauto

theorem sorted_keys_dictInsertAll (kvs : List (Nat × String)) :
    ∀ d : List (Nat × String),
      List.Pairwise (· ≤ ·) (d.map Prod.fst) →
      (∀ x ∈ d.map Prod.fst, ∀ p ∈ kvs, x ≤ p.1) →
      List.Pairwise (· ≤ ·) (kvs.map Prod.fst) →
      List.Pairwise (· ≤ ·) ((dictInsertAll d kvs).map Prod.fst) := by
  induction kvs with
  | nil => intro d hd _ _; exact hd
  | cons kv rest ih =>
    intro d hd hbound hkvs
    have h1 : dictInsertAll d (kv :: rest) = dictInsertAll (insertOrUpdate kv.1 kv.2 d) rest := rfl
    rw [h1]
    simp only [List.map_cons, List.pairwise_cons] at hkvs
    by_cases hm : kv.1 ∈ d.map Prod.fst
    · refine ih _ ?_ ?_ hkvs.2
      · rw [keys_insertOrUpdate_of_mem _ _ _ hm]; exact hd
      · rw [keys_insertOrUpdate_of_mem _ _ _ hm]
        intro x hx p hp
        exact hbound x hx p (List.mem_cons_of_mem kv hp)
    · refine ih _ ?_ ?_ hkvs.2
      · rw [insertOrUpdate_of_not_mem _ _ _ hm, List.map_append]
        rw [List.pairwise_append]
        refine ⟨hd, by simp, ?_⟩
        intro a ha b hb
        simp only [List.map_cons, List.map_nil, List.mem_singleton] at hb
        subst hb
        exact hbound a ha kv (List.mem_cons_self kv rest)
      · rw [insertOrUpdate_of_not_mem _ _ _ hm, List.map_append]
        intro x hx p hp
        rcases List.mem_append.mp hx with hx | hx
        · exact hbound x hx p (List.mem_cons_of_mem kv hp)
        · simp only [List.map_cons, List.map_nil, List.mem_singleton] at hx
          subst hx
          exact hkvs.1 p.1 (List.mem_map_of_mem Prod.fst hp)

/-! ### Claim C1: the matcher predicate -/

/-- C1: the matcher returns true for a statement node exactly when the
statement's sole content is a function call whose function reference is the
bare unqualified name `print`, with the call's arguments irrelevant; every
other statement shape — non-call expressions, assignments of calls, calls
inside a larger expression, calls on an attribute path — is rejected. -/
theorem print_statement_matcher_iff (s : SmallStmt) :
    matchesPrintStatement s = true ↔
      ∃ args, s = SmallStmt.Expr (Expression.Call (Expression.Name "print") args) := by
  cases s with
  | Expr e =>
    cases e with
    | Name v => simp [matchesPrintStatement]
    | Attribute v a => simp [matchesPrintStatement]
    | Subscript v i => simp [matchesPrintStatement]
    | Call f args =>
      cases f with
      | Name v =>
        simp only [matchesPrintStatement, beq_iff_eq]
        constructor
        · intro h; exact ⟨args, by rw [h]⟩
        · rintro ⟨args2, h⟩
          injection h with h1
          injection h1 with h2 h3
          injection h2 with h4
      | Attribute v a => simp [matchesPrintStatement]
      | Subscript v i => simp [matchesPrintStatement]
      | Call f2 args2 => simp [matchesPrintStatement]
      | BinaryOperation op l r => simp [matchesPrintStatement]
      | SimpleString v => simp [matchesPrintStatement]
      | IntegerLit n => simp [matchesPrintStatement]
    | BinaryOperation op l r => simp [matchesPrintStatement]
    | SimpleString v => simp [matchesPrintStatement]
    | IntegerLit n => simp [matchesPrintStatement]
  | Assign t e => simp [matchesPrintStatement]
  | Pass => simp [matchesPrintStatement]
  | Return e => simp [matchesPrintStatement]

/-- C1 witness: the matcher accepts a concrete bare `print()` statement. -/
theorem print_statement_matcher_iff_witness :
    matchesPrintStatement (SmallStmt.Expr (Expression.Call (Expression.Name "print") [])) = true :=
  (print_statement_matcher_iff _).mpr ⟨[], rfl⟩

/-! ### Claim C8: exit-status derivation -/

/-- C8: the exit-status derivation returns the non-zero code 123 whenever any
failure was recorded, the different non-zero code 1 for a dry run that
changed at least one file with zero failures, and 0 otherwise; the three
status values are pairwise distinct. -/
theorem return_code_trichotomy (r : Report) :
    (0 < r.failure_count → r.return_code = 123) ∧
    (r.failure_count = 0 → 0 < r.file_count → r.dry_run = true → r.return_code = 1) ∧
    (r.failure_count = 0 → (r.file_count = 0 ∨ r.dry_run = false) → r.return_code = 0) ∧
    ((123 : Nat) ≠ 1 ∧ (123 : Nat) ≠ 0 ∧ (1 : Nat) ≠ 0) := by
  refine ⟨?_, ?_, ?_, by omega, by omega, by omega⟩
  · intro h
    have hf : (r.failure_count != 0) = true := by
      simpa using Nat.pos_iff_ne_zero.mp h
    simp [Report.return_code, hf]
  · intro h0 h1 h2
    have hf : (r.failure_count != 0) = false := by simp [h0]
    have hfc : (r.file_count != 0) = true := by
      simpa using Nat.pos_iff_ne_zero.mp h1
    simp [Report.return_code, hf, hfc, h2]
  · intro h0 h1
    have hf : (r.failure_count != 0) = false := by simp [h0]
    rcases h1 with h1 | h1
    · simp [Report.return_code, hf, h1]
    · simp [Report.return_code, hf, h1]

/-- C8 witness: the three outcomes at concrete reports. -/
theorem return_code_trichotomy_witness :
    (Report.mk false false 0 0 1).return_code = 123 ∧
    (Report.mk true false 1 2 0).return_code = 1 ∧
    (Report.mk false false 3 4 0).return_code = 0 :=
  ⟨(return_code_trichotomy (Report.mk false false 0 0 1)).1 (by decide),
   (return_code_trichotomy (Report.mk true false 1 2 0)).2.1 rfl (by decide) rfl,
   (return_code_trichotomy (Report.mk false false 3 4 0)).2.2.1 rfl (Or.inr rfl)⟩

/-! ### Helper lemmas about the rewrite -/

theorem matches_filter_nil (body : List SmallStmt) :
    (body.filter (fun s => ! matchesPrintStatement s)).filter matchesPrintStatement = [] := by
  rw [List.filter_filter]
  refine List.filter_eq_nil_iff.mpr ?_
  intro a _
  simp

theorem withPass_clean (r : List Stmt) (hv : validStmts r = true) (hc : collectStmts r = []) :
    validStmts (withPass r) = true ∧ collectStmts (withPass r) = [] ∧
      (withPass r).isEmpty = false := by
  unfold withPass
  by_cases h : r.isEmpty = true
  · rw [if_pos h]
    exact ⟨rfl, rfl, rfl⟩
  · rw [if_neg h]
    refine ⟨hv, hc, ?_⟩
    revert h
    cases r.isEmpty <;> simp

mutual

theorem transform_output_clean_stmt : ∀ (s s2 : Stmt),
    transformStmt false s = some s2 → validStmt s2 = true ∧ collectStmt s2 = []
  | Stmt.SimpleStatementLine l body, s2, h => by
      have hdef : transformStmt false (Stmt.SimpleStatementLine l body)
          = (if (body.filter (fun s => ! matchesPrintStatement s)).isEmpty = true then none
             else some (Stmt.SimpleStatementLine l
               (body.filter (fun s => ! matchesPrintStatement s)))) := rfl
      rw [hdef] at h
      by_cases he : (body.filter (fun s => ! matchesPrintStatement s)).isEmpty = true
      · rw [if_pos he] at h
        exact Option.noConfusion h
      · rw [if_neg he] at h
        injection h with h2
        subst h2
        have he2 : (body.filter (fun s => ! matchesPrintStatement s)).isEmpty = false := by
          revert he
          cases (body.filter (fun s => ! matchesPrintStatement s)).isEmpty <;> simp
        constructor
        · simp [validStmt, he2]
        · simp [collectStmt, matches_filter_nil]
  | Stmt.FunctionDef l n body, s2, h => by
      have hdef : transformStmt false (Stmt.FunctionDef l n body)
          = some (Stmt.FunctionDef l n (withPass (transformStmts false body))) := rfl
      rw [hdef] at h
      injection h with h2
      subst h2
      obtain ⟨hv, hc⟩ := transform_output_clean_stmts body
      obtain ⟨hv2, hc2, hne⟩ := withPass_clean _ hv hc
      exact ⟨by simp [validStmt, hv2, hne], by simp [collectStmt, hc2]⟩
  | Stmt.ClassDef l n body, s2, h => by
      have hdef : transformStmt false (Stmt.ClassDef l n body)
          = some (Stmt.ClassDef l n (withPass (transformStmts false body))) := rfl
      rw [hdef] at h
      injection h with h2
      subst h2
      obtain ⟨hv, hc⟩ := transform_output_clean_stmts body
      obtain ⟨hv2, hc2, hne⟩ := withPass_clean _ hv hc
      exact ⟨by simp [validStmt, hv2, hne], by simp [collectStmt, hc2]⟩
  | Stmt.If l t body orelse, s2, h => by
      obtain ⟨hv, hc⟩ := transform_output_clean_stmts body
      obtain ⟨hv2, hc2, hne⟩ := withPass_clean _ hv hc
      cases orelse with
      | none =>
          have hdef : transformStmt false (Stmt.If l t body none)
              = some (Stmt.If l t (withPass (transformStmts false body)) none) := rfl
          rw [hdef] at h
          injection h with h2
          subst h2
          exact ⟨by simp [validStmt, hv2, hne], by simp [collectStmt, hc2]⟩
      | some o =>
          have hdef : transformStmt false (Stmt.If l t body (some o))
              = some (Stmt.If l t (withPass (transformStmts false body))
                  (some (withPass (transformStmts false o)))) := rfl
          rw [hdef] at h
          injection h with h2
          subst h2
          obtain ⟨hvo, hco⟩ := transform_output_clean_stmts o
          obtain ⟨hvo2, hco2, hneo⟩ := withPass_clean _ hvo hco
          exact ⟨by simp [validStmt, hv2, hne, hvo2, hneo],
                 by simp [collectStmt, hc2, hco2]⟩
  | Stmt.For l tg it body, s2, h => by
      have hdef : transformStmt false (Stmt.For l tg it body)
          = some (Stmt.For l tg it (withPass (transformStmts false body))) := rfl
      rw [hdef] at h
      injection h with h2
      subst h2
      obtain ⟨hv, hc⟩ := transform_output_clean_stmts body
      obtain ⟨hv2, hc2, hne⟩ := withPass_clean _ hv hc
      exact ⟨by simp [validStmt, hv2, hne], by simp [collectStmt, hc2]⟩
  | Stmt.While l t body, s2, h => by
      have hdef : transformStmt false (Stmt.While l t body)
          = some (Stmt.While l t (withPass (transformStmts false body))) := rfl
      rw [hdef] at h
      injection h with h2
      subst h2
      obtain ⟨hv, hc⟩ := transform_output_clean_stmts body
      obtain ⟨hv2, hc2, hne⟩ := withPass_clean _ hv hc
      exact ⟨by simp [validStmt, hv2, hne], by simp [collectStmt, hc2]⟩

theorem transform_output_clean_stmts : ∀ (ss : List Stmt),
    validStmts (transformStmts false ss) = true ∧ collectStmts (transformStmts false ss) = []
  | [] => ⟨rfl, rfl⟩
  | s :: rest => by
      cases hts : transformStmt false s with
      | none =>
          have hdef : transformStmts false (s :: rest) = transformStmts false rest := by
            show (match transformStmt false s with
                  | none => transformStmts false rest
                  | some s2 => s2 :: transformStmts false rest) = transformStmts false rest
            rw [hts]
          rw [hdef]
          exact transform_output_clean_stmts rest
      | some s2 =>
          have hdef : transformStmts false (s :: rest) = s2 :: transformStmts false rest := by
            show (match transformStmt false s with
                  | none => transformStmts false rest
                  | some s3 => s3 :: transformStmts false rest) = s2 :: transformStmts false rest
            rw [hts]
          rw [hdef]
          obtain ⟨h1, h2⟩ := transform_output_clean_stmt s s2 hts
          obtain ⟨h3, h4⟩ := transform_output_clean_stmts rest
          exact ⟨by simp [validStmts, h1, h3], by simp [collectStmts, h2, h4]⟩

end

mutual

theorem transform_fixpoint_stmt : ∀ (s : Stmt), validStmt s = true → collectStmt s = [] →
    transformStmt false s = some s
  | Stmt.SimpleStatementLine l body, hv, hc => by
      have hfil : body.filter matchesPrintStatement = [] := by
        simpa [collectStmt, List.map_eq_nil_iff] using hc
      have hall : ∀ a ∈ body, (! matchesPrintStatement a) = true := by
        intro a ha
        have h := List.filter_eq_nil_iff.mp hfil a ha
        revert h
        cases matchesPrintStatement a <;> simp
      have hself : body.filter (fun s => ! matchesPrintStatement s) = body :=
        List.filter_eq_self.mpr hall
      have hne : body.isEmpty = false := by
        have h := hv
        simp only [validStmt, Bool.not_eq_true'] at h
        exact h
      show (if (body.filter (fun s => ! matchesPrintStatement s)).isEmpty = true then none
            else some (Stmt.SimpleStatementLine l
              (body.filter (fun s => ! matchesPrintStatement s))))
          = some (Stmt.SimpleStatementLine l body)
      rw [hself, hne]
      simp
  | Stmt.FunctionDef l n body, hv, hc => by
      rw [validStmt, Bool.and_eq_true, Bool.not_eq_true'] at hv
      have hcb : collectStmts body = [] := hc
      have hfix := transform_fixpoint_stmts body hv.2 hcb
      show some (Stmt.FunctionDef l n (withPass (transformStmts false body)))
          = some (Stmt.FunctionDef l n body)
      rw [hfix]
      simp [withPass, hv.1]
  | Stmt.ClassDef l n body, hv, hc => by
      rw [validStmt, Bool.and_eq_true, Bool.not_eq_true'] at hv
      have hcb : collectStmts body = [] := hc
      have hfix := transform_fixpoint_stmts body hv.2 hcb
      show some (Stmt.ClassDef l n (withPass (transformStmts false body)))
          = some (Stmt.ClassDef l n body)
      rw [hfix]
      simp [withPass, hv.1]
  | Stmt.If l t body orelse, hv, hc => by
      cases orelse with
      | none =>
          rw [validStmt, Bool.and_eq_true, Bool.and_eq_true, Bool.not_eq_true'] at hv
          have hcb : collectStmts body = [] := by
            simpa [collectStmt] using hc
          have hfix := transform_fixpoint_stmts body hv.1.2 hcb
          show some (Stmt.If l t (withPass (transformStmts false body)) none)
              = some (Stmt.If l t body none)
          rw [hfix]
          simp [withPass, hv.1.1]
      | some o =>
          rw [validStmt, Bool.and_eq_true, Bool.and_eq_true, Bool.and_eq_true,
            Bool.not_eq_true', Bool.not_eq_true'] at hv
          have hcs : collectStmts body = [] ∧ collectStmts o = [] := by
            simpa [collectStmt, List.append_eq_nil] using hc
          have hfix := transform_fixpoint_stmts body hv.1.2 hcs.1
          have hfixo := transform_fixpoint_stmts o hv.2.2 hcs.2
          show some (Stmt.If l t (withPass (transformStmts false body))
                (some (withPass (transformStmts false o))))
              = some (Stmt.If l t body (some o))
          rw [hfix, hfixo]
          simp [withPass, hv.1.1, hv.2.1]
  | Stmt.For l tg it body, hv, hc => by
      rw [validStmt, Bool.and_eq_true, Bool.not_eq_true'] at hv
      have hcb : collectStmts body = [] := hc
      have hfix := transform_fixpoint_stmts body hv.2 hcb
      show some (Stmt.For l tg it (withPass (transformStmts false body)))
          = some (Stmt.For l tg it body)
      rw [hfix]
      simp [withPass, hv.1]
  | Stmt.While l t body, hv, hc => by
      rw [validStmt, Bool.and_eq_true, Bool.not_eq_true'] at hv
      have hcb : collectStmts body = [] := hc
      have hfix := transform_fixpoint_stmts body hv.2 hcb
      show some (Stmt.While l t (withPass (transformStmts false body)))
          = some (Stmt.While l t body)
      rw [hfix]
      simp [withPass, hv.1]

theorem transform_fixpoint_stmts : ∀ (ss : List Stmt), validStmts ss = true →
    collectStmts ss = [] → transformStmts false ss = ss
  | [], _, _ => rfl
  | s :: rest, hv, hc => by
      rw [validStmts, Bool.and_eq_true] at hv
      have hcs : collectStmt s = [] ∧ collectStmts rest = [] := by
        simpa [collectStmts, List.append_eq_nil] using hc
      have h1 := transform_fixpoint_stmt s hv.1 hcs.1
      have h2 := transform_fixpoint_stmts rest hv.2 hcs.2
      show (match transformStmt false s with
            | none => transformStmts false rest
            | some s2 => s2 :: transformStmts false rest) = s :: rest
      rw [h1, h2]

end

mutual

theorem dryrun_id_stmt : ∀ (s : Stmt), validStmt s = true → transformStmt true s = some s
  | Stmt.SimpleStatementLine l body, hv => by
      have hne : body.isEmpty = false := by
        have h := hv
        simp only [validStmt, Bool.not_eq_true'] at h
        exact h
      show (if body.isEmpty = true then none else some (Stmt.SimpleStatementLine l body))
          = some (Stmt.SimpleStatementLine l body)
      simp [hne]
  | Stmt.FunctionDef l n body, hv => by
      rw [validStmt, Bool.and_eq_true, Bool.not_eq_true'] at hv
      have h := dryrun_id_stmts body hv.2
      show some (Stmt.FunctionDef l n (withPass (transformStmts true body)))
          = some (Stmt.FunctionDef l n body)
      rw [h]
      simp [withPass, hv.1]
  | Stmt.ClassDef l n body, hv => by
      rw [validStmt, Bool.and_eq_true, Bool.not_eq_true'] at hv
      have h := dryrun_id_stmts body hv.2
      show some (Stmt.ClassDef l n (withPass (transformStmts true body)))
          = some (Stmt.ClassDef l n body)
      rw [h]
      simp [withPass, hv.1]
  | Stmt.If l t body orelse, hv => by
      cases orelse with
      | none =>
          rw [validStmt, Bool.and_eq_true, Bool.and_eq_true, Bool.not_eq_true'] at hv
          have h := dryrun_id_stmts body hv.1.2
          show some (Stmt.If l t (withPass (transformStmts true body)) none)
              = some (Stmt.If l t body none)
          rw [h]
          simp [withPass, hv.1.1]
      | some o =>
          rw [validStmt, Bool.and_eq_true, Bool.and_eq_true, Bool.and_eq_true,
            Bool.not_eq_true', Bool.not_eq_true'] at hv
          have h := dryrun_id_stmts body hv.1.2
          have ho := dryrun_id_stmts o hv.2.2
          show some (Stmt.If l t (withPass (transformStmts true body))
                (some (withPass (transformStmts true o))))
              = some (Stmt.If l t body (some o))
          rw [h, ho]
          simp [withPass, hv.1.1, hv.2.1]
  | Stmt.For l tg it body, hv => by
      rw [validStmt, Bool.and_eq_true, Bool.not_eq_true'] at hv
      have h := dryrun_id_stmts body hv.2
      show some (Stmt.For l tg it (withPass (transformStmts true body)))
          = some (Stmt.For l tg it body)
      rw [h]
      simp [withPass, hv.1]
  | Stmt.While l t body, hv => by
      rw [validStmt, Bool.and_eq_true, Bool.not_eq_true'] at hv
      have h := dryrun_id_stmts body hv.2
      show some (Stmt.While l t (withPass (transformStmts true body)))
          = some (Stmt.While l t body)
      rw [h]
      simp [withPass, hv.1]

theorem dryrun_id_stmts : ∀ (ss : List Stmt), validStmts ss = true → transformStmts true ss = ss
  | [], _ => rfl
  | s :: rest, hv => by
      rw [validStmts, Bool.and_eq_true] at hv
      have h1 := dryrun_id_stmt s hv.1
      have h2 := dryrun_id_stmts rest hv.2
      show (match transformStmt true s with
            | none => transformStmts true rest
            | some s2 => s2 :: transformStmts true rest) = s :: rest
      rw [h1, h2]

end

theorem pairwise_of_total {α : Type} {R : α → α → Prop} (h : ∀ a b, R a b) :
    ∀ xs : List α, List.Pairwise R xs
  | [] => List.Pairwise.nil
  | a :: rest => List.Pairwise.cons (fun b _ => h a b) (pairwise_of_total h rest)

mutual

theorem wf_collect_stmt : ∀ (s : Stmt) (lo hi : Nat), wfStmtFrom lo s = some hi →
    lo ≤ hi ∧ (∀ x ∈ (collectStmt s).map Prod.fst, lo ≤ x ∧ x < hi) ∧
      List.Pairwise (· ≤ ·) ((collectStmt s).map Prod.fst)
  | Stmt.SimpleStatementLine l body, lo, hi, h => by
      have hdef : wfStmtFrom lo (Stmt.SimpleStatementLine l body)
          = (if (decide (lo ≤ l) && ! body.isEmpty) = true then some (l + 1) else none) := rfl
      rw [hdef] at h
      by_cases hcond : (decide (lo ≤ l) && ! body.isEmpty) = true
      · rw [if_pos hcond] at h
        injection h with hhi
        rw [Bool.and_eq_true, decide_eq_true_iff] at hcond
        have hkeys : (collectStmt (Stmt.SimpleStatementLine l body)).map Prod.fst
            = (body.filter matchesPrintStatement).map (fun _ => l) := by
          simp [collectStmt, List.map_map, Function.comp_def]
        refine ⟨by omega, ?_, ?_⟩
        · intro x hx
          rw [hkeys] at hx
          obtain ⟨a, _, ha⟩ := List.mem_map.mp hx
          omega
        · rw [hkeys]
          exact List.pairwise_map.mpr (pairwise_of_total (fun _ _ => le_refl l) _)
      · rw [if_neg hcond] at h
        exact Option.noConfusion h
  | Stmt.FunctionDef l n body, lo, hi, h => by
      have hdef : wfStmtFrom lo (Stmt.FunctionDef l n body)
          = (if (decide (lo ≤ l) && ! body.isEmpty) = true
             then wfStmtsFrom (l + 1) body else none) := rfl
      rw [hdef] at h
      by_cases hcond : (decide (lo ≤ l) && ! body.isEmpty) = true
      · rw [if_pos hcond] at h
        rw [Bool.and_eq_true, decide_eq_true_iff] at hcond
        obtain ⟨h1, h2, h3⟩ := wf_collects_bounds body (l + 1) hi h
        refine ⟨by omega, ?_, h3⟩
        intro x hx
        have := h2 x hx
        omega
      · rw [if_neg hcond] at h
        exact Option.noConfusion h
  | Stmt.ClassDef l n body, lo, hi, h => by
      have hdef : wfStmtFrom lo (Stmt.ClassDef l n body)
          = (if (decide (lo ≤ l) && ! body.isEmpty) = true
             then wfStmtsFrom (l + 1) body else none) := rfl
      rw [hdef] at h
      by_cases hcond : (decide (lo ≤ l) && ! body.isEmpty) = true
      · rw [if_pos hcond] at h
        rw [Bool.and_eq_true, decide_eq_true_iff] at hcond
        obtain ⟨h1, h2, h3⟩ := wf_collects_bounds body (l + 1) hi h
        refine ⟨by omega, ?_, h3⟩
        intro x hx
        have := h2 x hx
        omega
      · rw [if_neg hcond] at h
        exact Option.noConfusion h
  | Stmt.If l t body orelse, lo, hi, h => by
      cases orelse with
      | none =>
          have hdef : wfStmtFrom lo (Stmt.If l t body none)
              = (if (decide (lo ≤ l) && ! body.isEmpty) = true
                 then
                   match wfStmtsFrom (l + 1) body with
                   | none => none
                   | some lo2 => some lo2
                 else none) := rfl
          rw [hdef] at h
          by_cases hcond : (decide (lo ≤ l) && ! body.isEmpty) = true
          · rw [if_pos hcond] at h
            rw [Bool.and_eq_true, decide_eq_true_iff] at hcond
            cases hbody : wfStmtsFrom (l + 1) body with
            | none =>
                rw [hbody] at h
                exact Option.noConfusion h
            | some lo2 =>
                rw [hbody] at h
                injection h with hhi
                subst hhi
                obtain ⟨h1, h2, h3⟩ := wf_collects_bounds body (l + 1) lo2 hbody
                have hkeys : (collectStmt (Stmt.If l t body none)).map Prod.fst
                    = (collectStmts body).map Prod.fst := by
                  simp [collectStmt]
                refine ⟨by omega, ?_, ?_⟩
                · intro x hx
                  rw [hkeys] at hx
                  have := h2 x hx
                  omega
                · rw [hkeys]
                  exact h3
          · rw [if_neg hcond] at h
            exact Option.noConfusion h
      | some o =>
          have hdef : wfStmtFrom lo (Stmt.If l t body (some o))
              = (if (decide (lo ≤ l) && ! body.isEmpty) = true
                 then
                   match wfStmtsFrom (l + 1) body with
                   | none => none
                   | some lo2 => if (! o.isEmpty) = true then wfStmtsFrom lo2 o else none
                 else none) := rfl
          rw [hdef] at h
          by_cases hcond : (decide (lo ≤ l) && ! body.isEmpty) = true
          · rw [if_pos hcond] at h
            rw [Bool.and_eq_true, decide_eq_true_iff] at hcond
            cases hbody : wfStmtsFrom (l + 1) body with
            | none =>
                rw [hbody] at h
                exact Option.noConfusion h
            | some lo2 =>
                rw [hbody] at h
                have hh : (if (! o.isEmpty) = true then wfStmtsFrom lo2 o else none)
                    = some hi := h
                by_cases ho : (! o.isEmpty) = true
                · rw [if_pos ho] at hh
                  obtain ⟨h1, h2, h3⟩ := wf_collects_bounds body (l + 1) lo2 hbody
                  obtain ⟨h4, h5, h6⟩ := wf_collects_bounds o lo2 hi hh
                  have hkeys : (collectStmt (Stmt.If l t body (some o))).map Prod.fst
                      = (collectStmts body).map Prod.fst ++ (collectStmts o).map Prod.fst := by
                    simp [collectStmt]
                  refine ⟨by omega, ?_, ?_⟩
                  · intro x hx
                    rw [hkeys] at hx
                    rcases List.mem_append.mp hx with hx | hx
                    · have := h2 x hx
                      omega
                    · have := h5 x hx
                      omega
                  · rw [hkeys, List.pairwise_append]
                    refine ⟨h3, h6, ?_⟩
                    intro a ha b hb
                    have hha := h2 a ha
                    have hhb := h5 b hb
                    omega
                · rw [if_neg ho] at hh
                  exact Option.noConfusion hh
          · rw [if_neg hcond] at h
            exact Option.noConfusion h
  | Stmt.For l tg it body, lo, hi, h => by
      have hdef : wfStmtFrom lo (Stmt.For l tg it body)
          = (if (decide (lo ≤ l) && ! body.isEmpty) = true
             then wfStmtsFrom (l + 1) body else none) := rfl
      rw [hdef] at h
      by_cases hcond : (decide (lo ≤ l) && ! body.isEmpty) = true
      · rw [if_pos hcond] at h
        rw [Bool.and_eq_true, decide_eq_true_iff] at hcond
        obtain ⟨h1, h2, h3⟩ := wf_collects_bounds body (l + 1) hi h
        refine ⟨by omega, ?_, h3⟩
        intro x hx
        have := h2 x hx
        omega
      · rw [if_neg hcond] at h
        exact Option.noConfusion h
  | Stmt.While l t body, lo, hi, h => by
      have hdef : wfStmtFrom lo (Stmt.While l t body)
          = (if (decide (lo ≤ l) && ! body.isEmpty) = true
             then wfStmtsFrom (l + 1) body else none) := rfl
      rw [hdef] at h
      by_cases hcond : (decide (lo ≤ l) && ! body.isEmpty) = true
      · rw [if_pos hcond] at h
        rw [Bool.and_eq_true, decide_eq_true_iff] at hcond
        obtain ⟨h1, h2, h3⟩ := wf_collects_bounds body (l + 1) hi h
        refine ⟨by omega, ?_, h3⟩
        intro x hx
        have := h2 x hx
        omega
      · rw [if_neg hcond] at h
        exact Option.noConfusion h

theorem wf_collects_bounds : ∀ (ss : List Stmt) (lo hi : Nat), wfStmtsFrom lo ss = some hi →
    lo ≤ hi ∧ (∀ x ∈ (collectStmts ss).map Prod.fst, lo ≤ x ∧ x < hi) ∧
      List.Pairwise (· ≤ ·) ((collectStmts ss).map Prod.fst)
  | [], lo, hi, h => by
      have hdef : wfStmtsFrom lo ([] : List Stmt) = some lo := rfl
      rw [hdef] at h
      injection h with hhi
      subst hhi
      exact ⟨le_refl lo, by intro x hx; simp [collectStmts] at hx, by simp [collectStmts]⟩
  | s :: rest, lo, hi, h => by
      have hdef : wfStmtsFrom lo (s :: rest)
          = (match wfStmtFrom lo s with
             | none => none
             | some lo2 => wfStmtsFrom lo2 rest) := rfl
      rw [hdef] at h
      cases hs : wfStmtFrom lo s with
      | none =>
          rw [hs] at h
          exact Option.noConfusion h
      | some lo2 =>
          rw [hs] at h
          obtain ⟨h1, h2, h3⟩ := wf_collect_stmt s lo lo2 hs
          obtain ⟨h4, h5, h6⟩ := wf_collects_bounds rest lo2 hi h
          have hkeys : (collectStmts (s :: rest)).map Prod.fst
              = (collectStmt s).map Prod.fst ++ (collectStmts rest).map Prod.fst := by
            simp [collectStmts]
          refine ⟨by omega, ?_, ?_⟩
          · intro x hx
            rw [hkeys] at hx
            rcases List.mem_append.mp hx with hx | hx
            · have := h2 x hx
              omega
            · have := h5 x hx
              omega
          · rw [hkeys, List.pairwise_append]
            refine ⟨h3, h6, ?_⟩
            intro a ha b hb
            have hha := h2 a ha
            have hhb := h5 b hb
            omega

end

/-! ### Concrete sample inputs -/

/-- A bare `print()` expression statement. -/
def printCall : SmallStmt := SmallStmt.Expr (Expression.Call (Expression.Name "print") [])

/-- The one-line module `print(1); print(2)`: two matched statements that
share the start line 1. -/
def sameLineModule : Module :=
  Module.mk [Stmt.SimpleStatementLine 1
    [SmallStmt.Expr (Expression.Call (Expression.Name "print") [Expression.IntegerLit 1]),
     SmallStmt.Expr (Expression.Call (Expression.Name "print") [Expression.IntegerLit 2])]]

/-- A module with one `print()` on line 1 and one on line 2. -/
def twoLineModule : Module :=
  Module.mk [Stmt.SimpleStatementLine 1 [printCall], Stmt.SimpleStatementLine 2 [printCall]]

/-- The module `a = 5` / `print("x")` / `b = 2` on lines 1 to 3. -/
def sampleModule : Module :=
  Module.mk
    [Stmt.SimpleStatementLine 1 [SmallStmt.Assign "a" (Expression.IntegerLit 5)],
     Stmt.SimpleStatementLine 2
       [SmallStmt.Expr (Expression.Call (Expression.Name "print")
         [Expression.SimpleString "\"x\""])],
     Stmt.SimpleStatementLine 3 [SmallStmt.Assign "b" (Expression.IntegerLit 2)]]

/-! ### Claim C2: idempotence of the non-dry-run transform -/

/-- C2: for every parseable input, a second non-dry-run transform of the
first run's output finds zero matches and leaves both the tree and its
rendered output unchanged. -/
theorem transform_idempotent (v v2 : Bool) (m : Module) :
    (removePrintStatements false v2 (removePrintStatements false v m).tree).print_statement_count
      = 0 ∧
    (removePrintStatements false v2 (removePrintStatements false v m).tree).tree
      = (removePrintStatements false v m).tree ∧
    moduleCode (removePrintStatements false v2 (removePrintStatements false v m).tree).tree
      = moduleCode (removePrintStatements false v m).tree := by
  obtain ⟨hv, hc⟩ := transform_output_clean_stmts m.body
  have hfix := transform_fixpoint_stmts _ hv hc
  have h2 : (removePrintStatements false v2 (removePrintStatements false v m).tree).tree
      = (removePrintStatements false v m).tree := by
    show Module.mk (transformStmts false (transformStmts false m.body))
        = Module.mk (transformStmts false m.body)
    rw [hfix]
  refine ⟨?_, h2, congrArg moduleCode h2⟩
  show (collectStmts (transformStmts false m.body)).length = 0
  rw [hc]
  rfl

/-! ### Claim C3: dry-run is a frame -/

/-- C3: for every parseable input, a dry-run transform returns the tree (and
hence the rendered output) unchanged while still producing the full match
count and, in verbose mode, the full match record. -/
theorem dry_run_preserves_module (v : Bool) (m : Module) (h : validModule m = true) :
    (removePrintStatements true v m).tree = m ∧
    moduleCode (removePrintStatements true v m).tree = moduleCode m ∧
    (removePrintStatements true v m).print_statement_count = (collectStmts m.body).length ∧
    (removePrintStatements true v m).print_statements
      = (if v then dictInsertAll [] (collectStmts m.body) else []) := by
  have hid := dryrun_id_stmts m.body h
  have h1 : (removePrintStatements true v m).tree = m := by
    show Module.mk (transformStmts true m.body) = m
    rw [hid]
  exact ⟨h1, congrArg moduleCode h1, rfl, rfl⟩

/-- C3 witness: the dry run leaves a concrete three-line module untouched. -/
theorem dry_run_preserves_module_witness :
    validModule sampleModule = true ∧
    (removePrintStatements true true sampleModule).tree = sampleModule :=
  ⟨rfl, (dry_run_preserves_module true sampleModule rfl).1⟩

/-! ### Claim C4: sole statement of a block becomes a pass placeholder -/

/-- C4: removing a matched statement that is the sole statement of an
indented block leaves a block holding exactly one `pass` placeholder.  The
first conjunct states this for the block-rewrite itself — the single
function through which the transform rewrites the indented block of every
compound statement — and the following conjuncts instantiate it at every
block position of the embedding: function body, class body, `if` body,
`else` block, `for` body, `while` body, and a nested block (a `while` block
inside a function body).  The final conjunct gives re-parseability: every
non-dry-run output tree is structurally valid (every statement line and
every block non-empty). -/
theorem sole_statement_becomes_pass (l l2 l3 : Nat) (n : String) (t : Expression)
    (tg : String) (it : Expression) (e : SmallStmt)
    (h : matchesPrintStatement e = true) :
    withPass (transformStmts false [Stmt.SimpleStatementLine l2 [e]]) = [passLine] ∧
    transformStmt false (Stmt.FunctionDef l n [Stmt.SimpleStatementLine l2 [e]])
      = some (Stmt.FunctionDef l n [passLine]) ∧
    transformStmt false (Stmt.ClassDef l n [Stmt.SimpleStatementLine l2 [e]])
      = some (Stmt.ClassDef l n [passLine]) ∧
    transformStmt false (Stmt.If l t [Stmt.SimpleStatementLine l2 [e]] none)
      = some (Stmt.If l t [passLine] none) ∧
    transformStmt false
        (Stmt.If l t [Stmt.SimpleStatementLine l2 [e]]
          (some [Stmt.SimpleStatementLine l3 [e]]))
      = some (Stmt.If l t [passLine] (some [passLine])) ∧
    transformStmt false (Stmt.For l tg it [Stmt.SimpleStatementLine l2 [e]])
      = some (Stmt.For l tg it [passLine]) ∧
    transformStmt false (Stmt.While l t [Stmt.SimpleStatementLine l2 [e]])
      = some (Stmt.While l t [passLine]) ∧
    transformStmt false
        (Stmt.FunctionDef l n [Stmt.While l3 t [Stmt.SimpleStatementLine l2 [e]]])
      = some (Stmt.FunctionDef l n [Stmt.While l3 t [passLine]]) ∧
    (∀ (m : Module) (v : Bool), validModule (removePrintStatements false v m).tree = true) := by
  have hfil : [e].filter (fun s => ! matchesPrintStatement s) = [] := by
    simp [List.filter_cons, h]
  have hcore : ∀ lx : Nat,
      withPass (transformStmts false [Stmt.SimpleStatementLine lx [e]]) = [passLine] := by
    intro lx
    have hline : transformStmt false (Stmt.SimpleStatementLine lx [e]) = none := by
      show (if ([e].filter (fun s => ! matchesPrintStatement s)).isEmpty = true then none
            else some (Stmt.SimpleStatementLine lx
              ([e].filter (fun s => ! matchesPrintStatement s)))) = none
      rw [hfil]
      rfl
    have hts : transformStmts false [Stmt.SimpleStatementLine lx [e]] = [] := by
      show (match transformStmt false (Stmt.SimpleStatementLine lx [e]) with
            | none => transformStmts false []
            | some s2 => s2 :: transformStmts false []) = []
      rw [hline]
      rfl
    rw [hts]
    rfl
  have hwhile : transformStmt false (Stmt.While l3 t [Stmt.SimpleStatementLine l2 [e]])
      = some (Stmt.While l3 t [passLine]) := by
    show some (Stmt.While l3 t
        (withPass (transformStmts false [Stmt.SimpleStatementLine l2 [e]])))
      = some (Stmt.While l3 t [passLine])
    rw [hcore l2]
  refine ⟨hcore l2, ?_, ?_, ?_, ?_, ?_, ?_, ?_, ?_⟩
  · show some (Stmt.FunctionDef l n
        (withPass (transformStmts false [Stmt.SimpleStatementLine l2 [e]])))
      = some (Stmt.FunctionDef l n [passLine])
    rw [hcore l2]
  · show some (Stmt.ClassDef l n
        (withPass (transformStmts false [Stmt.SimpleStatementLine l2 [e]])))
      = some (Stmt.ClassDef l n [passLine])
    rw [hcore l2]
  · show some (Stmt.If l t
        (withPass (transformStmts false [Stmt.SimpleStatementLine l2 [e]])) none)
      = some (Stmt.If l t [passLine] none)
    rw [hcore l2]
  · show some (Stmt.If l t
        (withPass (transformStmts false [Stmt.SimpleStatementLine l2 [e]]))
        (some (withPass (transformStmts false [Stmt.SimpleStatementLine l3 [e]]))))
      = some (Stmt.If l t [passLine] (some [passLine]))
    rw [hcore l2, hcore l3]
  · show some (Stmt.For l tg it
        (withPass (transformStmts false [Stmt.SimpleStatementLine l2 [e]])))
      = some (Stmt.For l tg it [passLine])
    rw [hcore l2]
  · show some (Stmt.While l t
        (withPass (transformStmts false [Stmt.SimpleStatementLine l2 [e]])))
      = some (Stmt.While l t [passLine])
    rw [hcore l2]
  · have hts2 : transformStmts false [Stmt.While l3 t [Stmt.SimpleStatementLine l2 [e]]]
        = [Stmt.While l3 t [passLine]] := by
      show (match transformStmt false (Stmt.While l3 t [Stmt.SimpleStatementLine l2 [e]]) with
            | none => transformStmts false []
            | some s2 => s2 :: transformStmts false [])
          = [Stmt.While l3 t [passLine]]
      rw [hwhile]
      rfl
    show some (Stmt.FunctionDef l n
        (withPass (transformStmts false [Stmt.While l3 t [Stmt.SimpleStatementLine l2 [e]]])))
      = some (Stmt.FunctionDef l n [Stmt.While l3 t [passLine]])
    rw [hts2]
    rfl
  · intro m v
    exact (transform_output_clean_stmts m.body).1

/-- C4 witness: at concrete inputs, a block whose sole statement is
`print()` becomes exactly one `pass`, in a function body, a `for` body, and
a `while` block nested inside a function body. -/
theorem sole_statement_becomes_pass_witness :
    transformStmt false (Stmt.FunctionDef 1 "foo" [Stmt.SimpleStatementLine 2 [printCall]])
      = some (Stmt.FunctionDef 1 "foo" [passLine]) ∧
    transformStmt false
        (Stmt.For 1 "i" (Expression.Call (Expression.Name "range") [Expression.IntegerLit 4])
          [Stmt.SimpleStatementLine 2 [printCall]])
      = some (Stmt.For 1 "i"
          (Expression.Call (Expression.Name "range") [Expression.IntegerLit 4]) [passLine]) ∧
    transformStmt false
        (Stmt.FunctionDef 1 "foo"
          [Stmt.While 2 (Expression.Name "x") [Stmt.SimpleStatementLine 3 [printCall]]])
      = some (Stmt.FunctionDef 1 "foo" [Stmt.While 2 (Expression.Name "x") [passLine]]) ∧
    validModule (removePrintStatements false false sameLineModule).tree = true :=
  ⟨(sole_statement_becomes_pass 1 2 2 "foo" (Expression.Name "x") "i"
      (Expression.Call (Expression.Name "range") [Expression.IntegerLit 4]) printCall rfl).2.1,
   (sole_statement_becomes_pass 1 2 3 "foo" (Expression.Name "x") "i"
      (Expression.Call (Expression.Name "range") [Expression.IntegerLit 4]) printCall rfl).2.2.2.2.2.1,
   (sole_statement_becomes_pass 1 3 2 "foo" (Expression.Name "x") "i"
      (Expression.Call (Expression.Name "range") [Expression.IntegerLit 4]) printCall rfl).2.2.2.2.2.2.2.1,
   (sole_statement_becomes_pass 1 2 2 "bar" (Expression.Name "x") "i"
      (Expression.Call (Expression.Name "range") [Expression.IntegerLit 4]) printCall rfl).2.2.2.2.2.2.2.2
     sameLineModule false⟩

/-! ### Claim C5: record count versus match count -/

/-- C5 counterexample: on the parseable one-line input `print(1); print(2)`
processed in verbose mode, the running match count reaches 2 but the
line-keyed mapping ends with a single entry — the second match overwrites
the first, so the claimed equality fails. -/
theorem same_line_overwrite_counterexample :
    wfModule sameLineModule = true ∧
    (removePrintStatements false true sameLineModule).print_statement_count = 2 ∧
    (removePrintStatements false true sameLineModule).print_statements.length = 1 :=
  ⟨rfl, rfl, rfl⟩

/-- C5 as amended: the mapping never has more entries than the running match
count, and the two agree whenever no two matched statements share a start
line. -/
theorem match_records_length (d : Bool) (m : Module) :
    (removePrintStatements d true m).print_statements.length
      ≤ (removePrintStatements d true m).print_statement_count ∧
    (((collectStmts m.body).map Prod.fst).Nodup →
      (removePrintStatements d true m).print_statements.length
        = (removePrintStatements d true m).print_statement_count) := by
  constructor
  · have h := length_dictInsertAll_le (collectStmts m.body) []
    simpa [removePrintStatements, dictInsertAll] using h
  · intro hnd
    have h := length_dictInsertAll_nodup (collectStmts m.body) [] (by simp) hnd
    simpa [removePrintStatements, dictInsertAll] using h

/-- C5 witness: with matches on two distinct lines the mapping size equals
the match count. -/
theorem match_records_length_witness :
    (removePrintStatements false true twoLineModule).print_statements.length
      ≤ (removePrintStatements false true twoLineModule).print_statement_count ∧
    (removePrintStatements false true twoLineModule).print_statements.length
      = (removePrintStatements false true twoLineModule).print_statement_count :=
  ⟨(match_records_length false twoLineModule).1,
   (match_records_length false twoLineModule).2 (by decide)⟩

/-! ### Claim C6: keys of the verbose mapping -/

/-- C6: for every parseable input processed in verbose mode, the keys of the
resulting line-to-text mapping are exactly the start lines of the matched
statements, and the mapping's insertion order is non-decreasing by line
number. -/
theorem verbose_keys_exact_and_sorted (d : Bool) (m : Module) (h : wfModule m = true) :
    (∀ x, x ∈ (removePrintStatements d true m).print_statements.map Prod.fst ↔
       x ∈ (collectStmts m.body).map Prod.fst) ∧
    List.Pairwise (· ≤ ·) ((removePrintStatements d true m).print_statements.map Prod.fst) := by
  obtain ⟨hi, hwf⟩ := Option.isSome_iff_exists.mp h
  obtain ⟨h1, h2, h3⟩ := wf_collects_bounds m.body 1 hi hwf
  have hps : (removePrintStatements d true m).print_statements
      = dictInsertAll [] (collectStmts m.body) := rfl
  constructor
  · intro x
    rw [hps, mem_keys_dictInsertAll]
    simp
  · rw [hps]
    exact sorted_keys_dictInsertAll _ [] (by simp) (by simp) h3

/-- C6 witness: at a concrete two-line module the key 1 is recorded exactly
when line 1 holds a match, and the key order is non-decreasing. -/
theorem verbose_keys_exact_and_sorted_witness :
    (1 ∈ (removePrintStatements false true twoLineModule).print_statements.map Prod.fst ↔
       1 ∈ (collectStmts twoLineModule.body).map Prod.fst) ∧
    List.Pairwise (· ≤ ·)
      ((removePrintStatements false true twoLineModule).print_statements.map Prod.fst) :=
  ⟨(verbose_keys_exact_and_sorted false twoLineModule rfl).1 1,
   (verbose_keys_exact_and_sorted false twoLineModule rfl).2⟩

/-! ### Claim C7: verbose formatting -/

theorem foldl_append_flatMap {α β : Type} (f : α → List β) :
    ∀ (l : List α) (init : List β),
      l.foldl (fun acc p => acc ++ f p) init = init ++ l.flatMap f
  | [], init => by simp
  | a :: rest, init => by
      rw [List.foldl_cons, foldl_append_flatMap f rest (init ++ f a)]
      simp [List.append_assoc]

/-- C7: the verbose formatter returns an empty result for an empty mapping;
otherwise it returns the label header followed, for each entry in insertion
order, by one report line per physical line of the entry's text, and the
line-number markers of an entry's report lines count consecutively upward
from the entry's recorded start line. -/
theorem format_verbose_output_spec (fn : String) (ps : List (Nat × String)) :
    (ps = [] → format_verbose_output fn ps = "") ∧
    (ps ≠ [] → format_verbose_output fn ps
      = String.intercalate "\n" (fn :: ps.flatMap
          (fun p => (List.enumFrom p.1 (pySplitlines p.2)).map (fun q => styledLine q.1 q.2)))) ∧
    (∀ p ∈ ps,
      ((List.enumFrom p.1 (pySplitlines p.2)).map (fun q => styledLine q.1 q.2)).length
          = (pySplitlines p.2).length ∧
      (List.enumFrom p.1 (pySplitlines p.2)).map Prod.fst
          = List.range' p.1 (pySplitlines p.2).length) := by
  refine ⟨?_, ?_, ?_⟩
  · intro h
    subst h
    rfl
  · intro h
    have hlen : ¬((ps.length == 0) = true) := by
      cases ps with
      | nil => exact absurd rfl h
      | cons a rest => simp
    unfold format_verbose_output
    rw [if_neg hlen, foldl_append_flatMap]
    rfl
  · intro p _
    constructor
    · simp [List.enumFrom_length]
    · exact List.enumFrom_map_fst p.1 (pySplitlines p.2)

/-- C7 witness: the formatter at a concrete one-entry mapping. -/
theorem format_verbose_output_spec_witness :
    format_verbose_output "f" [(3, "print()")]
      = String.intercalate "\n" ("f" :: [((3 : Nat), "print()")].flatMap
          (fun p => (List.enumFrom p.1 (pySplitlines p.2)).map (fun q => styledLine q.1 q.2))) ∧
    ((List.enumFrom 3 (pySplitlines "print()")).map (fun q => styledLine q.1 q.2)).length
      = (pySplitlines "print()").length :=
  ⟨(format_verbose_output_spec "f" [(3, "print()")]).2.1 (by simp),
   ((format_verbose_output_spec "f" [(3, "print()")]).2.2 (3, "print()") (by simp)).1⟩

/-! ### Claims C9 and C10: check_file -/

theorem check_file_source_def (m : Module) (report : Report) (d v : Bool) :
    check_file (FileInput.source m) report d v
      = (if ((removePrintStatements d v m).print_statement_count != 0) = true then
           (if (! d) = true
            then CheckResult.mk
                { report with
                  file_count := report.file_count + 1
                  print_statement_count :=
                    report.print_statement_count
                      + (removePrintStatements d v m).print_statement_count }
                (some (moduleCode (removePrintStatements d v m).tree))
            else CheckResult.mk
                { report with
                  file_count := report.file_count + 1
                  print_statement_count :=
                    report.print_statement_count
                      + (removePrintStatements d v m).print_statement_count }
                none)
         else CheckResult.mk report none) := rfl

/-- C9: a structural (transform) failure writes nothing, increments the
failure count by exactly one while leaving the file and match counters
untouched, and — for any input whatsoever — a single `check_file` call
either leaves the failure count alone or increments it by one while changing
nothing else, so a file is never counted both as transformed and as
failed. -/
theorem check_file_structural_failure (report : Report) (d v : Bool) :
    (check_file FileInput.unparseable report d v).written = none ∧
    (check_file FileInput.unparseable report d v).report.failure_count
      = report.failure_count + 1 ∧
    (check_file FileInput.unparseable report d v).report.file_count = report.file_count ∧
    (check_file FileInput.unparseable report d v).report.print_statement_count
      = report.print_statement_count ∧
    (∀ inp : FileInput,
      (check_file inp report d v).report.failure_count = report.failure_count ∨
      ((check_file inp report d v).report.failure_count = report.failure_count + 1 ∧
       (check_file inp report d v).report.file_count = report.file_count ∧
       (check_file inp report d v).report.print_statement_count
         = report.print_statement_count ∧
       (check_file inp report d v).written = none)) := by
  refine ⟨rfl, rfl, rfl, rfl, ?_⟩
  intro inp
  cases inp with
  | unreadable => exact Or.inr ⟨rfl, rfl, rfl, rfl⟩
  | unparseable => exact Or.inr ⟨rfl, rfl, rfl, rfl⟩
  | source m =>
      left
      rw [check_file_source_def]
      by_cases hc : ((removePrintStatements d v m).print_statement_count != 0) = true
      · rw [if_pos hc]
        by_cases hd : (! d) = true
        · rw [if_pos hd]
        · rw [if_neg hd]
      · rw [if_neg hc]

/-- C10: `check_file` writes the file back exactly when the input parsed, at
least one statement matched and dry-run is off; a parsed module with zero
matches changes neither the report nor the file. -/
theorem check_file_write_guard (report : Report) (d v : Bool) :
    (∀ inp : FileInput, (check_file inp report d v).written.isSome = true ↔
       (∃ m, inp = FileInput.source m ∧
          1 ≤ (removePrintStatements d v m).print_statement_count ∧ d = false)) ∧
    (∀ m : Module, (removePrintStatements d v m).print_statement_count = 0 →
       (check_file (FileInput.source m) report d v).report = report ∧
       (check_file (FileInput.source m) report d v).written = none) := by
  constructor
  · intro inp
    cases inp with
    | unreadable =>
        constructor
        · intro hcontra
          exact Bool.noConfusion hcontra
        · rintro ⟨m2, hm2, _⟩
          exact FileInput.noConfusion hm2
    | unparseable =>
        constructor
        · intro hcontra
          exact Bool.noConfusion hcontra
        · rintro ⟨m2, hm2, _⟩
          exact FileInput.noConfusion hm2
    | source m =>
        rw [check_file_source_def]
        by_cases hc : ((removePrintStatements d v m).print_statement_count != 0) = true
        · rw [if_pos hc]
          have hcount : 1 ≤ (removePrintStatements d v m).print_statement_count := by
            rw [bne_iff_ne] at hc
            omega
          by_cases hd : (! d) = true
          · rw [if_pos hd]
            have hdf : d = false := by
              revert hd
              cases d <;> simp
            constructor
            · intro _
              exact ⟨m, rfl, hcount, hdf⟩
            · intro _
              rfl
          · rw [if_neg hd]
            have hdt : d = true := by
              revert hd
              cases d <;> simp
            constructor
            · intro hcontra
              exact Bool.noConfusion hcontra
            · rintro ⟨m2, hm2, _, hdf⟩
              rw [hdt] at hdf
              exact Bool.noConfusion hdf
        · rw [if_neg hc]
          have hzero : (removePrintStatements d v m).print_statement_count = 0 := by
            revert hc
            cases hcc : (removePrintStatements d v m).print_statement_count != 0 with
            | true => intro hcontra; exact absurd rfl hcontra
            | false =>
                intro _
                rw [bne_eq_false_iff_eq] at hcc
                exact hcc
          constructor
          · intro hcontra
            exact Bool.noConfusion hcontra
          · rintro ⟨m2, hm2, hge, _⟩
            injection hm2 with hmm
            subst hmm
            omega
  · intro m hzero
    rw [check_file_source_def]
    have hc : ¬(((removePrintStatements d v m).print_statement_count != 0) = true) := by
      rw [hzero]
      simp
    rw [if_neg hc]
    exact ⟨rfl, rfl⟩

/-- C10 witness: a parsed module with zero matches leaves a concrete report
unchanged and writes nothing. -/
theorem check_file_write_guard_witness :
    (check_file (FileInput.source (Module.mk [])) (Report.mk false false 0 0 0)
        false false).report = Report.mk false false 0 0 0 ∧
    (check_file (FileInput.source (Module.mk [])) (Report.mk false false 0 0 0)
        false false).written = none :=
  (check_file_write_guard (Report.mk false false 0 0 0) false false).2 (Module.mk []) rfl

end RemovePrint
